import Mathlib

/-! Migration fetchers (`repo/fsrepo/migrations/fetcher.go`)

A shallow embedding of the fetch-abstraction layer: the `Fetcher` interface,
the `MultiFetcher` fallback cascade, the `limitReadCloser` stream wrapper and
`GetDistPathEnv`.

Go interface values carry hidden mutable state; here a method is a transition
on an explicit world state `σ` (state passing).  Go `nil` (for an interface
value such as `io.ReadCloser` or `error`) is `none`.
-/

namespace Migrations

/-- Go `error` values.  `EOF` is the sentinel `io.EOF`; every other error is
identified by its message. -/
inductive GoError where
  | EOF : GoError
  | other (msg : String) : GoError
  deriving DecidableEq, Repr

/-- The pair `(io.ReadCloser, error)` returned by `Fetch`; either component
may be `nil`. -/
abbrev FetchResult (RC : Type) := Option RC × Option GoError

/-- The `Fetcher` interface (fetcher.go:20-26).  `σ` is the state of the world
the implementation may read and change, `Ctx` stands for `context.Context`
and `RC` for the `io.ReadCloser` values handed out. -/
structure Fetcher (σ Ctx RC : Type) where
  /-- `Fetch(ctx, filePath) (io.ReadCloser, error)` -/
  Fetch : Ctx → String → σ → FetchResult RC × σ
  /-- `SetDistPath(distPath)` -/
  SetDistPath : String → σ → σ

/-- The struct `MultiFetcher` (fetcher.go:30-32). -/
structure MultiFetcher (σ Ctx RC : Type) where
  fetchers : List (Fetcher σ Ctx RC)

/-- `NewMultiFetcher(f ...Fetcher)` (fetcher.go:41-47): a fresh slice of
`len(f)` elements filled by `copy`.  Lists are values, so the copy of `f` is
the list `f` itself. -/
def NewMultiFetcher {σ Ctx RC : Type} (f : List (Fetcher σ Ctx RC)) :
    MultiFetcher σ Ctx RC :=
  { fetchers := f }

/-- The `for ... range f.fetchers` loop of `MultiFetcher.Fetch`
(fetcher.go:52-59).  The second argument holds the named results `rc, err`
as they stand when the remaining fetchers are about to be tried. -/
def MultiFetcher.fetchLoop {σ Ctx RC : Type} (ctx : Ctx) (ipfsPath : String) :
    List (Fetcher σ Ctx RC) → FetchResult RC → σ → FetchResult RC × σ
  | [], res, s => (res, s)
  | fetcher :: rest, _, s =>
    match fetcher.Fetch ctx ipfsPath s with
    | ((rc, none), s1) => ((rc, none), s1)
    | ((rc, some err), s1) => MultiFetcher.fetchLoop ctx ipfsPath rest (rc, some err) s1

/-- `MultiFetcher.Fetch` (fetcher.go:51-60).  The named results start out as
`nil, nil`. -/
def MultiFetcher.Fetch {σ Ctx RC : Type} (f : MultiFetcher σ Ctx RC) (ctx : Ctx)
    (ipfsPath : String) (s : σ) : FetchResult RC × σ :=
  MultiFetcher.fetchLoop ctx ipfsPath f.fetchers (none, none) s

/-- `strings.HasPrefix(s, "/")`: the string starts with the byte `0x2F`.  In
UTF-8 that byte only ever encodes the character `/`. -/
def hasSlashPrefix (s : String) : Bool :=
  match s.data with
  | c :: _ => c == '/'
  | [] => false

/-- The value of the local `distPath` after the `if` of
`MultiFetcher.SetDistPath` (fetcher.go:64-66). -/
def normalizedDistPath (distPath : String) : String :=
  if !hasSlashPrefix distPath then "/" ++ distPath else distPath

/-- `MultiFetcher.SetDistPath` (fetcher.go:63-70). -/
def MultiFetcher.SetDistPath {σ Ctx RC : Type} (f : MultiFetcher σ Ctx RC)
    (distPath : String) (s : σ) : σ :=
  f.fetchers.foldl (fun st fetcher => fetcher.SetDistPath (normalizedDistPath distPath) st) s

/-! ## Observing calls

To speak about which backend is invoked, and with what, a backend is wrapped so
that every call is appended to a log kept next to the world state.  The wrapper
changes nothing else. -/

/-- A recorded method call on the backend with the given position in the
construction list. -/
inductive Call (Ctx : Type) where
  | fetch (idx : Nat) (ctx : Ctx) (filePath : String) : Call Ctx
  | setDistPath (idx : Nat) (distPath : String) : Call Ctx
  deriving DecidableEq, Repr

/-- The backend `f`, recording each call under the index `idx`. -/
def spy {σ Ctx RC : Type} (idx : Nat) (f : Fetcher σ Ctx RC) :
    Fetcher (σ × List (Call Ctx)) Ctx RC where
  Fetch ctx filePath w :=
    ((f.Fetch ctx filePath w.1).1,
      ((f.Fetch ctx filePath w.1).2, w.2 ++ [Call.fetch idx ctx filePath]))
  SetDistPath distPath w := (f.SetDistPath distPath w.1, w.2 ++ [Call.setDistPath idx distPath])

/-- The backends `fs`, recording under the indices `n, n+1, ...`. -/
def spyFrom {σ Ctx RC : Type} : Nat → List (Fetcher σ Ctx RC) →
    List (Fetcher (σ × List (Call Ctx)) Ctx RC)
  | _, [] => []
  | n, f :: fs => spy n f :: spyFrom (n + 1) fs

/-- The world state in which backend number `k` is invoked when the backends
`fs` are called one after the other starting from `s` (for `k ≥ fs.length`:
the state after all of them). -/
def stateBefore {σ Ctx RC : Type} (ctx : Ctx) (filePath : String) :
    List (Fetcher σ Ctx RC) → Nat → σ → σ
  | [], _, s => s
  | _ :: _, 0, s => s
  | f :: fs, k + 1, s => stateBefore ctx filePath fs k (f.Fetch ctx filePath s).2

/-- What backend number `k` returns when the backends before it have been
called in order from `s`; `none` when there is no backend number `k`. -/
def outcomeAt {σ Ctx RC : Type} (ctx : Ctx) (filePath : String)
    (fs : List (Fetcher σ Ctx RC)) (k : Nat) (s : σ) : Option (FetchResult RC) :=
  match fs.get? k with
  | some f => some (f.Fetch ctx filePath (stateBefore ctx filePath fs k s)).1
  | none => none

/-- The recorded calls `Fetch(ctx, filePath)` on backends `n, n+1, ..., n+len-1`. -/
def fetchCalls {Ctx : Type} (ctx : Ctx) (filePath : String) (n len : Nat) : List (Call Ctx) :=
  (List.range' n len).map (fun k => Call.fetch k ctx filePath)

/-- The recorded calls `SetDistPath(distPath)` on backends `n, ..., n+len-1`. -/
def setDistPathCalls (Ctx : Type) (distPath : String) (n len : Nat) : List (Call Ctx) :=
  (List.range' n len).map (fun k => Call.setDistPath k distPath)

/-- The distribution paths handed to backends, in the order of the calls. -/
def handedDistPaths {Ctx : Type} : List (Call Ctx) → List String
  | [] => []
  | Call.setDistPath _ d :: rest => d :: handedDistPaths rest
  | Call.fetch _ _ _ :: rest => handedDistPaths rest

/-! ## Test doubles -/

/-- A stateless backend that always answers `res` and ignores `SetDistPath`. -/
def constFetcher {σ Ctx RC : Type} (res : FetchResult RC) : Fetcher σ Ctx RC where
  Fetch _ _ s := (res, s)
  SetDistPath _ s := s

/-- Backend A of the end-to-end scenario: always fails. -/
def backendA : Fetcher Unit Unit String :=
  constFetcher (none, some (GoError.other "A: connection refused"))

/-- Backend B of the end-to-end scenario: succeeds with the stream "hello". -/
def backendB : Fetcher Unit Unit String :=
  constFetcher (some "hello", none)

/-- Backend C of the end-to-end scenario: would succeed if it were asked. -/
def backendC : Fetcher Unit Unit String :=
  constFetcher (some "from C", none)

/-- A backend that fails like A, with an error of its own. -/
def backendD : Fetcher Unit Unit String :=
  constFetcher (none, some (GoError.other "D: not found"))

/-! ## Streams

An `io.ReadCloser` value is a pair of methods over hidden state `ρ`.  A call
`Read(p)` is given `len(p)` and yields the bytes it stored in `p[0:n]` together
with its error; `Close()` yields its error. -/

/-- One byte of stream data. -/
abbrev Byte := UInt8

/-- What `Read` returns: the `n` bytes read and the error. -/
abbrev ReadResult := List Byte × Option GoError

/-- The interface `io.ReadCloser`. -/
structure ReadCloser (ρ : Type) where
  /-- `Read(p []byte) (n int, err error)`, given `len(p)` -/
  Read : Nat → ρ → ReadResult × ρ
  /-- `Close() error` -/
  Close : ρ → Option GoError × ρ

/-- The struct `io.LimitedReader`: the wrapped reader `R` (here: its state) and
the number `N` of bytes still allowed.  `N` is an `int64`; `Read` only ever
subtracts a byte count between `0` and `2^63 - 1` from a positive `N`, which
cannot wrap around, so `Int` is exact. -/
structure LimitedReader (ρ : Type) where
  R : ρ
  N : Int

/-- `io.LimitReader(r, n)` returns `&LimitedReader{r, n}`. -/
def LimitReader {ρ : Type} (r : ρ) (n : Int) : LimitedReader ρ :=
  { R := r, N := n }

/-- The length of the buffer after `if int64(len(p)) > l.N { p = p[0:l.N] }`. -/
def cutBuffer (plen : Nat) (N : Int) : Nat :=
  if (plen : Int) > N then N.toNat else plen

/-- Modelled from the spec: `io.LimitReader`, which `NewLimitReadCloser` calls
(fetcher.go:76), is Go standard library code and not among the repository
sources.  The spec (4.3): reads behave as the underlying stream's reads, the
underlying stream is never read beyond the limit, and once the count of bytes
returned reaches the limit reads return end-of-data.  This is how the standard
library's `LimitedReader.Read` does it: with no bytes left (`N <= 0`) it
returns `0, io.EOF` without touching `R`; otherwise it cuts the buffer down to
`N` bytes if it is longer, reads `R` into it, subtracts the count from `N` and
returns what `R` returned. -/
def LimitedReader.Read {ρ : Type} (rc : ReadCloser ρ) (plen : Nat) (l : LimitedReader ρ) :
    ReadResult × LimitedReader ρ :=
  if l.N ≤ 0 then (([], some GoError.EOF), l)
  else
    ((rc.Read (cutBuffer plen l.N) l.R).1,
      { R := (rc.Read (cutBuffer plen l.N) l.R).2,
        N := l.N - ((rc.Read (cutBuffer plen l.N) l.R).1.1.length : Int) })

/-- The methods of the value `limitReadCloser{Reader: io.LimitReader(rc, limit),
Closer: rc}` built by `NewLimitReadCloser` (fetcher.go:34-37, 74-79): `Read` is
promoted from the embedded `Reader`, `Close` from the embedded `Closer`, which
is `rc` itself.  Both fields hold the same `rc`, so its state is kept once, in
`R`.  The value starts in the state `LimitReader r limit`, where `r` is the
state of `rc`. -/
def NewLimitReadCloser {ρ : Type} (rc : ReadCloser ρ) : ReadCloser (LimitedReader ρ) where
  Read plen l := LimitedReader.Read rc plen l
  Close l := ((rc.Close l.R).1, { R := (rc.Close l.R).2, N := l.N })

/-- A recorded method call on a stream: `Read` with the buffer length it was
given and the number of bytes it returned, or `Close`. -/
inductive StreamCall where
  | read (requested returned : Nat) : StreamCall
  | close : StreamCall
  deriving DecidableEq, Repr

/-- The stream `rc`, recording each call. -/
def spyStream {ρ : Type} (rc : ReadCloser ρ) : ReadCloser (ρ × List StreamCall) where
  Read plen w :=
    ((rc.Read plen w.1).1,
      ((rc.Read plen w.1).2, w.2 ++ [StreamCall.read plen (rc.Read plen w.1).1.1.length]))
  Close w := ((rc.Close w.1).1, ((rc.Close w.1).2, w.2 ++ [StreamCall.close]))

/-- A caller that reads with buffers of the given lengths, one `Read` each,
until a `Read` returns a non-nil error: the bytes received, concatenated, the
error that ended the reading (`none` if the buffers ran out first) and the
state of the stream afterwards. -/
def readUntilErr {ρ : Type} (rc : ReadCloser ρ) : List Nat → ρ → ReadResult × ρ
  | [], s => (([], none), s)
  | plen :: rest, s =>
    match rc.Read plen s with
    | ((d, some e), s1) => ((d, some e), s1)
    | ((d, none), s1) =>
      ((d ++ (readUntilErr rc rest s1).1.1, (readUntilErr rc rest s1).1.2),
        (readUntilErr rc rest s1).2)

/-- A caller that makes one `Read` per given buffer length, whatever the reads
return: the results in order and the state of the stream afterwards. -/
def readMany {ρ : Type} (rc : ReadCloser ρ) : List Nat → ρ → List ReadResult × ρ
  | [], s => ([], s)
  | plen :: rest, s =>
    ((rc.Read plen s).1 :: (readMany rc rest (rc.Read plen s).2).1,
      (readMany rc rest (rc.Read plen s).2).2)

/-- A stream that holds the bytes `content s` and behaves well: a `Read`
returns at most `len(p)` bytes, they are the next bytes of the content, the only
error is `io.EOF`, given when nothing is left after the call, and a `Read` with
a non-empty buffer and a nil error returns at least one byte. -/
structure WellBehaved {ρ : Type} (rc : ReadCloser ρ) (content : ρ → List Byte) : Prop where
  read_le : ∀ plen s, (rc.Read plen s).1.1.length ≤ plen
  read_content : ∀ plen s, content s = (rc.Read plen s).1.1 ++ content (rc.Read plen s).2
  read_err : ∀ plen s e, (rc.Read plen s).1.2 = some e →
    e = GoError.EOF ∧ content (rc.Read plen s).2 = []
  read_progress : ∀ plen s, 0 < plen → (rc.Read plen s).1.2 = none → (rc.Read plen s).1.1 ≠ []

/-- Sum of the buffer lengths of the recorded `Read` calls. -/
def bytesRequested : List StreamCall → Nat
  | [] => 0
  | StreamCall.read requested _ :: rest => requested + bytesRequested rest
  | StreamCall.close :: rest => bytesRequested rest

/-- Sum of the byte counts the recorded `Read` calls returned. -/
def bytesReturned : List StreamCall → Nat
  | [] => 0
  | StreamCall.read _ returned :: rest => returned + bytesReturned rest
  | StreamCall.close :: rest => bytesReturned rest

/-- Number of recorded `Close` calls. -/
def closeCount : List StreamCall → Nat
  | [] => 0
  | StreamCall.read _ _ :: rest => closeCount rest
  | StreamCall.close :: rest => closeCount rest + 1

/-- With `allowed` bytes allowed at the start of the log: every recorded `Read`
was made while some bytes were still allowed and with a buffer no longer than
what was still allowed, each returned byte using up one of them. -/
def withinAllowance : Int → List StreamCall → Bool
  | _, [] => true
  | allowed, StreamCall.read requested returned :: rest =>
    decide (0 < allowed) && decide ((requested : Int) ≤ allowed) &&
      withinAllowance (allowed - (returned : Int)) rest
  | allowed, StreamCall.close :: rest => withinAllowance allowed rest

/-- The state of the stream returned by `NewLimitReadCloser(rc, limit)`, with
every call on `rc` recorded, after a caller has made one `Read` per given
buffer length. -/
def stateAfterReads {ρ : Type} (rc : ReadCloser ρ) (limit : Int) (r : ρ) (bufs : List Nat) :
    LimitedReader (ρ × List StreamCall) :=
  (readMany (NewLimitReadCloser (spyStream rc)) bufs (LimitReader (r, []) limit)).2

/-- State of an in-memory stream: the bytes not yet read and how often it has
been closed. -/
structure MemStream where
  data : List Byte
  closed : Nat
  deriving DecidableEq, Repr

/-- An in-memory stream that hands out at most `chunk` bytes per `Read` (for
`chunk = 1` like `iotest.OneByteReader` over a `bytes.Reader`) and whose
`Close` returns `closeErr`. -/
def chunkReader (chunk : Nat) (closeErr : Option GoError) : ReadCloser MemStream where
  Read plen s :=
    if s.data = [] then (([], some GoError.EOF), s)
    else ((s.data.take (min plen chunk), none),
      { data := s.data.drop (min plen chunk), closed := s.closed })
  Close s := (closeErr, { data := s.data, closed := s.closed + 1 })

/-- The bytes of "hello world". -/
def helloWorld : List Byte := [104, 101, 108, 108, 111, 32, 119, 111, 114, 108, 100]

/-! ## The distribution path: `GetDistPathEnv` -/

/-- Constant `CurrentIpfsDist` (fetcher.go:12). -/
def CurrentIpfsDist : String := "/ipfs/Qme8pJhBidEUXRdpcWLGR2fkG5kdwVnaMh3kabjfP8zz7Y"

/-- Constant `IpnsIpfsDist` (fetcher.go:14). -/
def IpnsIpfsDist : String := "/ipns/dist.ipfs.io"

/-- Constant `envIpfsDistPath` (fetcher.go:17). -/
def envIpfsDistPath : String := "IPFS_DIST_PATH"

/-- The process environment: the value of each variable that is set. -/
abbrev Environ := String → Option String

/-- `os.Getenv(key)`: the value of the variable, which is empty when the
variable is not present. -/
def Getenv (env : Environ) (key : String) : String :=
  match env key with
  | some v => v
  | none => ""

/-- `GetDistPathEnv` (fetcher.go:88-96), reading the environment `env`. -/
def GetDistPathEnv (env : Environ) (distPath : String) : String :=
  if Getenv env envIpfsDistPath ≠ "" then Getenv env envIpfsDistPath
  else if distPath = "" then IpnsIpfsDist
  else distPath

/-- An environment in which no variable is set. -/
def noEnviron : Environ := fun _ => none

/-- An environment in which only `IPFS_DIST_PATH` is set, to `v`. -/
def distPathEnviron (v : String) : Environ :=
  fun key => if key = "IPFS_DIST_PATH" then some v else none

/-- A backend that checks its context first: with a cancelled context (`true`)
it fails at once, otherwise it answers `res`. -/
def ctxAwareFetcher (res : FetchResult String) : Fetcher Unit Bool String where
  Fetch cancelled _ s :=
    if cancelled then ((none, some (GoError.other "context canceled")), s) else (res, s)
  SetDistPath _ s := s

/-- A backend that fails but hands back a non-nil stream with its error. -/
def backendF : Fetcher Unit Unit String :=
  constFetcher (some "partial body", some (GoError.other "F: unexpected end of stream"))

/-- An in-memory stream that reports `err` instead of `io.EOF` once its data is
used up, like a connection that breaks. -/
def brokenReader (err : GoError) : ReadCloser MemStream where
  Read plen s :=
    if s.data = [] then (([], some err), s)
    else ((s.data.take plen, none), { data := s.data.drop plen, closed := s.closed })
  Close s := (none, { data := s.data, closed := s.closed + 1 })

/-! ## Slices in memory

`NewMultiFetcher` with its list argument taken as a value cannot tell a copy
from the original.  Here the backing arrays of `[]Fetcher` slices live in a
memory, a slice is the address of its array, and an element is an interface
value, `none` for `nil`. -/

/-- Memory holding the backing arrays of `[]Fetcher` slices; the address of an
array is its position. -/
abbrev SliceMem (σ Ctx RC : Type) := List (List (Option (Fetcher σ Ctx RC)))

/-- The elements of the slice at address `a` (no elements at an address that
holds nothing). -/
def SliceMem.load {σ Ctx RC : Type} (m : SliceMem σ Ctx RC) (a : Nat) :
    List (Option (Fetcher σ Ctx RC)) :=
  match m[a]? with
  | some xs => xs
  | none => []

/-- Assignments to elements of the slice at address `a`, leaving it with the
elements `xs`. -/
def SliceMem.store {σ Ctx RC : Type} (m : SliceMem σ Ctx RC) (a : Nat)
    (xs : List (Option (Fetcher σ Ctx RC))) : SliceMem σ Ctx RC :=
  m.set a xs

/-- A sequence of such assignments, each to the slice at the address given
with it. -/
def SliceMem.storeAll {σ Ctx RC : Type} (m : SliceMem σ Ctx RC) :
    List (Nat × List (Option (Fetcher σ Ctx RC))) → SliceMem σ Ctx RC
  | [] => m
  | w :: ws => SliceMem.storeAll (m.store w.1 w.2) ws

/-- The Go builtin `make([]Fetcher, n)`: `n` nil elements. -/
def Slice.make (σ Ctx RC : Type) (n : Nat) : List (Option (Fetcher σ Ctx RC)) :=
  List.replicate n none

/-- The Go builtin `copy(dst, src)`: the first `min(len(dst), len(src))`
elements of `dst` are overwritten with those of `src`; the result is `dst`
afterwards. -/
def Slice.copy {α : Type} (dst src : List α) : List α :=
  src.take dst.length ++ dst.drop src.length

/-- `NewMultiFetcher(f...)` (fetcher.go:41-47) on memory, `f` being the address
of the caller's slice: a new array of `len(f)` elements is made, filled by
`copy(mf.fetchers, f)` and kept in `mf.fetchers`.  The result is the address
held by `mf.fetchers` and the memory afterwards. -/
def NewMultiFetcher.alloc {σ Ctx RC : Type} (m : SliceMem σ Ctx RC) (f : Nat) :
    Nat × SliceMem σ Ctx RC :=
  (m.length, m ++ [Slice.copy (Slice.make σ Ctx RC (m.load f).length) (m.load f)])

/-- The loop of `MultiFetcher.Fetch` (fetcher.go:52-59) over the elements of a
slice as they are in memory.  A call of `Fetch` on a nil element panics, which
is the result `none`; the loop only gets as far as a nil element when every
element before it has returned an error. -/
def MultiFetcher.fetchLoopSlots {σ Ctx RC : Type} (ctx : Ctx) (ipfsPath : String) :
    List (Option (Fetcher σ Ctx RC)) → FetchResult RC → σ → Option (FetchResult RC × σ)
  | [], res, s => some (res, s)
  | none :: _, _, _ => none
  | some fetcher :: rest, _, s =>
    match fetcher.Fetch ctx ipfsPath s with
    | ((rc, none), s1) => some ((rc, none), s1)
    | ((rc, some err), s1) =>
      MultiFetcher.fetchLoopSlots ctx ipfsPath rest (rc, some err) s1

/-- The loop of `MultiFetcher.SetDistPath` (fetcher.go:67-69) over the elements
of a slice as they are in memory; `none` when it panics on a nil element. -/
def MultiFetcher.setDistPathSlots {σ Ctx RC : Type} (distPath : String) :
    List (Option (Fetcher σ Ctx RC)) → σ → Option σ
  | [], s => some s
  | none :: _, _ => none
  | some fetcher :: rest, s =>
    MultiFetcher.setDistPathSlots distPath rest (fetcher.SetDistPath distPath s)

/-- `MultiFetcher.Fetch` (fetcher.go:51-60) of the composite whose `fetchers`
slice is at address `a` of the memory `m`. -/
def MultiFetcher.FetchAt {σ Ctx RC : Type} (m : SliceMem σ Ctx RC) (a : Nat) (ctx : Ctx)
    (ipfsPath : String) (s : σ) : Option (FetchResult RC × σ) :=
  MultiFetcher.fetchLoopSlots ctx ipfsPath (m.load a) (none, none) s

/-- `MultiFetcher.SetDistPath` (fetcher.go:63-70) of the composite whose
`fetchers` slice is at address `a` of the memory `m`. -/
def MultiFetcher.SetDistPathAt {σ Ctx RC : Type} (m : SliceMem σ Ctx RC) (a : Nat)
    (distPath : String) (s : σ) : Option σ :=
  MultiFetcher.setDistPathSlots (normalizedDistPath distPath) (m.load a) s

/-! ## Lemmas on the fallback loop -/

theorem stateBefore_zero {σ Ctx RC : Type} (ctx : Ctx) (p : String)
    (fs : List (Fetcher σ Ctx RC)) (s : σ) : stateBefore ctx p fs 0 s = s := by
  cases fs <;> rfl

theorem outcomeAt_cons_zero {σ Ctx RC : Type} (ctx : Ctx) (p : String) (f : Fetcher σ Ctx RC)
    (fs : List (Fetcher σ Ctx RC)) (s : σ) :
    outcomeAt ctx p (f :: fs) 0 s = some (f.Fetch ctx p s).1 := rfl

theorem outcomeAt_cons_succ {σ Ctx RC : Type} (ctx : Ctx) (p : String) (f : Fetcher σ Ctx RC)
    (fs : List (Fetcher σ Ctx RC)) (k : Nat) (s : σ) :
    outcomeAt ctx p (f :: fs) (k + 1) s = outcomeAt ctx p fs k (f.Fetch ctx p s).2 := rfl

theorem outcomeAt_nil {σ Ctx RC : Type} (ctx : Ctx) (p : String) (k : Nat) (s : σ) :
    outcomeAt ctx p ([] : List (Fetcher σ Ctx RC)) k s = none := rfl

theorem outcomeAt_of_lt {σ Ctx RC : Type} (ctx : Ctx) (p : String)
    (fs : List (Fetcher σ Ctx RC)) (k : Nat) (s : σ) (hk : k < fs.length) :
    ∃ q, outcomeAt ctx p fs k s = some q := by
  induction fs generalizing k s with
  | nil => simp at hk
  | cons f fs ih =>
    cases k with
    | zero => exact ⟨_, outcomeAt_cons_zero ctx p f fs s⟩
    | succ k =>
      rw [outcomeAt_cons_succ]
      exact ih k _ (Nat.lt_of_succ_lt_succ hk)

theorem outcomeAt_lt_of_some {σ Ctx RC : Type} (ctx : Ctx) (p : String)
    (fs : List (Fetcher σ Ctx RC)) (k : Nat) (s : σ) (q : FetchResult RC)
    (h : outcomeAt ctx p fs k s = some q) : k < fs.length := by
  induction fs generalizing k s with
  | nil => simp [outcomeAt_nil] at h
  | cons f fs ih =>
    cases k with
    | zero => simp
    | succ k =>
      rw [outcomeAt_cons_succ] at h
      exact Nat.succ_lt_succ (ih k _ h)

theorem fetchCalls_succ {Ctx : Type} (ctx : Ctx) (p : String) (n len : Nat) :
    fetchCalls ctx p n (len + 1) = Call.fetch n ctx p :: fetchCalls ctx p (n + 1) len := by
  simp [fetchCalls, List.range'_succ]

/-- One step of the loop over recorded backends when the head fails. -/
theorem fetchLoop_spy_fail {σ Ctx RC : Type} (ctx : Ctx) (p : String) (n : Nat)
    (f : Fetcher σ Ctx RC) (fs : List (Fetcher σ Ctx RC)) (acc : FetchResult RC) (s : σ)
    (log : List (Call Ctx)) (h : (f.Fetch ctx p s).1.2 ≠ none) :
    MultiFetcher.fetchLoop ctx p (spyFrom n (f :: fs)) acc (s, log) =
      MultiFetcher.fetchLoop ctx p (spyFrom (n + 1) fs) (f.Fetch ctx p s).1
        ((f.Fetch ctx p s).2, log ++ [Call.fetch n ctx p]) := by
  rcases hf : f.Fetch ctx p s with ⟨⟨rc, e⟩, s1⟩
  rw [hf] at h
  cases e with
  | none => exact absurd rfl h
  | some err => simp [spyFrom, MultiFetcher.fetchLoop, spy, hf]

/-- One step of the loop over recorded backends when the head succeeds. -/
theorem fetchLoop_spy_ok {σ Ctx RC : Type} (ctx : Ctx) (p : String) (n : Nat)
    (f : Fetcher σ Ctx RC) (fs : List (Fetcher σ Ctx RC)) (acc : FetchResult RC) (s : σ)
    (log : List (Call Ctx)) (h : (f.Fetch ctx p s).1.2 = none) :
    MultiFetcher.fetchLoop ctx p (spyFrom n (f :: fs)) acc (s, log) =
      (((f.Fetch ctx p s).1.1, none), ((f.Fetch ctx p s).2, log ++ [Call.fetch n ctx p])) := by
  rcases hf : f.Fetch ctx p s with ⟨⟨rc, e⟩, s1⟩
  rw [hf] at h
  cases e with
  | none => simp [spyFrom, MultiFetcher.fetchLoop, spy, hf]
  | some err => exact absurd h (by simp)

/-- Recording is transparent: result and world state are those of the plain loop. -/
theorem fetchLoop_spy_transparent {σ Ctx RC : Type} (ctx : Ctx) (p : String)
    (fs : List (Fetcher σ Ctx RC)) (n : Nat) (acc : FetchResult RC) (s : σ)
    (log : List (Call Ctx)) :
    (MultiFetcher.fetchLoop ctx p (spyFrom n fs) acc (s, log)).1 =
        (MultiFetcher.fetchLoop ctx p fs acc s).1 ∧
      (MultiFetcher.fetchLoop ctx p (spyFrom n fs) acc (s, log)).2.1 =
        (MultiFetcher.fetchLoop ctx p fs acc s).2 := by
  induction fs generalizing n acc s log with
  | nil => simp [spyFrom, MultiFetcher.fetchLoop]
  | cons f fs ih =>
    rcases hf : f.Fetch ctx p s with ⟨⟨rc, e⟩, s1⟩
    cases e with
    | none =>
      rw [fetchLoop_spy_ok ctx p n f fs acc s log (by rw [hf])]
      simp [MultiFetcher.fetchLoop, hf]
    | some err =>
      rw [fetchLoop_spy_fail ctx p n f fs acc s log (by rw [hf]; simp)]
      simp only [MultiFetcher.fetchLoop, hf]
      exact ih (n + 1) (rc, some err) s1 (log ++ [Call.fetch n ctx p])

/-- The loop stops at the first backend that reports no error. -/
theorem fetchLoop_spy_first_ok {σ Ctx RC : Type} (ctx : Ctx) (p : String)
    (fs : List (Fetcher σ Ctx RC)) (n : Nat) (acc : FetchResult RC) (s : σ)
    (log : List (Call Ctx)) (i : Nat) (r : FetchResult RC)
    (hi : outcomeAt ctx p fs i s = some r) (hok : r.2 = none)
    (hmin : ∀ k, k < i → ∀ q, outcomeAt ctx p fs k s = some q → q.2 ≠ none) :
    MultiFetcher.fetchLoop ctx p (spyFrom n fs) acc (s, log) =
      ((r.1, none), (stateBefore ctx p fs (i + 1) s, log ++ fetchCalls ctx p n (i + 1))) := by
  induction fs generalizing n acc s log i with
  | nil => simp [outcomeAt_nil] at hi
  | cons f fs ih =>
    cases i with
    | zero =>
      rw [outcomeAt_cons_zero] at hi
      have hr : (f.Fetch ctx p s).1 = r := Option.some.inj hi
      rw [fetchLoop_spy_ok ctx p n f fs acc s log (by rw [hr]; exact hok), hr]
      simp [stateBefore, stateBefore_zero, fetchCalls]
    | succ i =>
      have h0 : (f.Fetch ctx p s).1.2 ≠ none :=
        hmin 0 (Nat.succ_pos i) _ (outcomeAt_cons_zero ctx p f fs s)
      rw [fetchLoop_spy_fail ctx p n f fs acc s log h0]
      rw [outcomeAt_cons_succ] at hi
      rw [ih (n + 1) _ _ _ i hi
        (fun k hk q hq => hmin (k + 1) (Nat.succ_lt_succ hk) q (by rw [outcomeAt_cons_succ]; exact hq))]
      simp [stateBefore, fetchCalls_succ ctx p n (i + 1)]

/-- When no backend reports success the loop calls all of them and ends with
the outcome of the last one (or with what it started from when there is none). -/
theorem fetchLoop_spy_all_fail {σ Ctx RC : Type} (ctx : Ctx) (p : String)
    (fs : List (Fetcher σ Ctx RC)) (n : Nat) (acc : FetchResult RC) (s : σ)
    (log : List (Call Ctx))
    (hfail : ∀ k q, outcomeAt ctx p fs k s = some q → q.2 ≠ none) :
    MultiFetcher.fetchLoop ctx p (spyFrom n fs) acc (s, log) =
      ((outcomeAt ctx p fs (fs.length - 1) s).getD acc,
        (stateBefore ctx p fs fs.length s, log ++ fetchCalls ctx p n fs.length)) := by
  induction fs generalizing n acc s log with
  | nil => simp [spyFrom, MultiFetcher.fetchLoop, outcomeAt_nil, stateBefore, fetchCalls]
  | cons f fs ih =>
    have h0 : (f.Fetch ctx p s).1.2 ≠ none := hfail 0 _ (outcomeAt_cons_zero ctx p f fs s)
    rw [fetchLoop_spy_fail ctx p n f fs acc s log h0]
    rw [ih (n + 1) _ _ _
      (fun k q hq => hfail (k + 1) q (by rw [outcomeAt_cons_succ]; exact hq))]
    cases fs with
    | nil => simp [outcomeAt_nil, outcomeAt_cons_zero, stateBefore, fetchCalls]
    | cons g gs =>
      obtain ⟨q, hq⟩ := outcomeAt_of_lt ctx p (g :: gs) gs.length (f.Fetch ctx p s).2 (by simp)
      simp [outcomeAt_cons_succ, stateBefore, fetchCalls_succ ctx p n (gs.length + 1), hq]

/-- The plain loop, first success. -/
theorem fetchLoop_first_ok {σ Ctx RC : Type} (ctx : Ctx) (p : String)
    (fs : List (Fetcher σ Ctx RC)) (acc : FetchResult RC) (s : σ) (i : Nat) (r : FetchResult RC)
    (hi : outcomeAt ctx p fs i s = some r) (hok : r.2 = none)
    (hmin : ∀ k, k < i → ∀ q, outcomeAt ctx p fs k s = some q → q.2 ≠ none) :
    MultiFetcher.fetchLoop ctx p fs acc s = ((r.1, none), stateBefore ctx p fs (i + 1) s) := by
  have t := fetchLoop_spy_transparent ctx p fs 0 acc s []
  rw [fetchLoop_spy_first_ok ctx p fs 0 acc s [] i r hi hok hmin] at t
  exact Prod.ext t.1.symm t.2.symm

/-- The plain loop, no success. -/
theorem fetchLoop_all_fail {σ Ctx RC : Type} (ctx : Ctx) (p : String)
    (fs : List (Fetcher σ Ctx RC)) (acc : FetchResult RC) (s : σ)
    (hfail : ∀ k q, outcomeAt ctx p fs k s = some q → q.2 ≠ none) :
    MultiFetcher.fetchLoop ctx p fs acc s =
      ((outcomeAt ctx p fs (fs.length - 1) s).getD acc, stateBefore ctx p fs fs.length s) := by
  have t := fetchLoop_spy_transparent ctx p fs 0 acc s []
  rw [fetchLoop_spy_all_fail ctx p fs 0 acc s [] hfail] at t
  exact Prod.ext t.1.symm t.2.symm

/-- A backend list with a successful outcome has a first one. -/
theorem exists_first_ok {σ Ctx RC : Type} (ctx : Ctx) (p : String)
    (fs : List (Fetcher σ Ctx RC)) (s : σ)
    (h : ∃ k r, outcomeAt ctx p fs k s = some r ∧ r.2 = none) :
    ∃ i r, outcomeAt ctx p fs i s = some r ∧ r.2 = none ∧
      ∀ k, k < i → ∀ q, outcomeAt ctx p fs k s = some q → q.2 ≠ none := by
  classical
  obtain ⟨r, hr, hok⟩ := Nat.find_spec h
  refine ⟨Nat.find h, r, hr, hok, ?_⟩
  intro k hk q hq hq2
  exact Nat.find_min h hk ⟨q, hq, hq2⟩

/-! ## The fallback cascade: `MultiFetcher.Fetch` -/

/-- C1: if backend number `i` is the first whose `Fetch` returns a nil error
(so the list is non-empty), `MultiFetcher.Fetch` returns exactly that backend's
stream with a nil error, and the calls it makes are `Fetch(ctx, path)` on
backends `0, 1, ..., i`, once each and in this order: nothing after `i` is
called. -/
theorem MultiFetcher_Fetch_first_success {σ Ctx RC : Type} (fs : List (Fetcher σ Ctx RC))
    (ctx : Ctx) (ipfsPath : String) (s : σ) (i : Nat) (r : FetchResult RC)
    (hi : outcomeAt ctx ipfsPath fs i s = some r) (hok : r.2 = none)
    (hmin : ∀ k, k < i → ∀ q, outcomeAt ctx ipfsPath fs k s = some q → q.2 ≠ none) :
    fs ≠ [] ∧
    (NewMultiFetcher fs).Fetch ctx ipfsPath s =
      ((r.1, none), stateBefore ctx ipfsPath fs (i + 1) s) ∧
    (NewMultiFetcher (spyFrom 0 fs)).Fetch ctx ipfsPath (s, []) =
      ((r.1, none), (stateBefore ctx ipfsPath fs (i + 1) s, fetchCalls ctx ipfsPath 0 (i + 1))) := by
  refine ⟨?_, ?_, ?_⟩
  · rintro rfl
    simp [outcomeAt_nil] at hi
  · exact fetchLoop_first_ok ctx ipfsPath fs (none, none) s i r hi hok hmin
  · have h := fetchLoop_spy_first_ok ctx ipfsPath fs 0 (none, none) s [] i r hi hok hmin
    simpa [MultiFetcher.Fetch, NewMultiFetcher] using h

/-- C1 witness: A fails, B succeeds with "hello", C is never called. -/
theorem MultiFetcher_Fetch_first_success_witness :
    (NewMultiFetcher [backendA, backendB, backendC]).Fetch () "fs-repo-migrations/versions" () =
      ((some "hello", none), ()) ∧
    (NewMultiFetcher (spyFrom 0 [backendA, backendB, backendC])).Fetch ()
        "fs-repo-migrations/versions" ((), []) =
      ((some "hello", none),
        ((), [Call.fetch 0 () "fs-repo-migrations/versions",
              Call.fetch 1 () "fs-repo-migrations/versions"])) :=
  (MultiFetcher_Fetch_first_success [backendA, backendB, backendC] ()
    "fs-repo-migrations/versions" () 1 (some "hello", none) rfl rfl
    (by
      intro k hk q hq
      obtain rfl : k = 0 := by omega
      cases hq
      simp [backendA, constFetcher])).2

/-- C2: when every backend of a non-empty list returns a non-nil error,
`MultiFetcher.Fetch` returns the error of the last backend of the list; an
earlier backend's error that differs from it is not the one returned. -/
theorem MultiFetcher_Fetch_all_fail_last_error {σ Ctx RC : Type}
    (fs : List (Fetcher σ Ctx RC)) (ctx : Ctx) (ipfsPath : String) (s : σ) (hne : fs ≠ [])
    (hfail : ∀ k q, outcomeAt ctx ipfsPath fs k s = some q → q.2 ≠ none) :
    ∃ last, outcomeAt ctx ipfsPath fs (fs.length - 1) s = some last ∧
      last.2 ≠ none ∧
      ((NewMultiFetcher fs).Fetch ctx ipfsPath s).1.2 = last.2 ∧
      ∀ k q, k < fs.length - 1 → outcomeAt ctx ipfsPath fs k s = some q → q.2 ≠ last.2 →
        ((NewMultiFetcher fs).Fetch ctx ipfsPath s).1.2 ≠ q.2 := by
  have hlen : fs.length - 1 < fs.length :=
    Nat.sub_lt (List.length_pos.mpr hne) Nat.one_pos
  obtain ⟨last, hlast⟩ := outcomeAt_of_lt ctx ipfsPath fs (fs.length - 1) s hlen
  have hres : ((NewMultiFetcher fs).Fetch ctx ipfsPath s).1 = last := by
    have h := fetchLoop_all_fail ctx ipfsPath fs (none, none) s hfail
    simp [MultiFetcher.Fetch, NewMultiFetcher, h, hlast]
  refine ⟨last, hlast, hfail _ _ hlast, by rw [hres], ?_⟩
  intro k q _ _ hq
  rw [hres]
  exact fun h => hq h.symm

/-- C2 witness: A and D both fail, with different errors; D's error comes back. -/
theorem MultiFetcher_Fetch_all_fail_last_error_witness :
    ∃ last, outcomeAt () "versions" [backendA, backendD] 1 () = some last ∧
      last.2 ≠ none ∧
      ((NewMultiFetcher [backendA, backendD]).Fetch () "versions" ()).1.2 = last.2 ∧
      ∀ k q, k < 1 → outcomeAt () "versions" [backendA, backendD] k () = some q →
        q.2 ≠ last.2 →
        ((NewMultiFetcher [backendA, backendD]).Fetch () "versions" ()).1.2 ≠ q.2 :=
  MultiFetcher_Fetch_all_fail_last_error [backendA, backendD] () "versions" ()
    (by simp)
    (by
      intro k q hq
      have hk := outcomeAt_lt_of_some _ _ _ _ _ _ hq
      simp at hk
      interval_cases k
      · cases hq
        simp [backendA, constFetcher]
      · cases hq
        simp [backendD, constFetcher])

/-- C3: a `MultiFetcher` built from no backends answers every `Fetch` with a
nil stream and a nil error, leaves the world as it was and calls nothing. -/
theorem MultiFetcher_Fetch_empty {σ Ctx RC : Type} (ctx : Ctx) (ipfsPath : String) (s : σ)
    (log : List (Call Ctx)) :
    (NewMultiFetcher ([] : List (Fetcher σ Ctx RC))).Fetch ctx ipfsPath s = ((none, none), s) ∧
    (NewMultiFetcher (spyFrom 0 ([] : List (Fetcher σ Ctx RC)))).Fetch ctx ipfsPath (s, log) =
      ((none, none), (s, log)) :=
  ⟨rfl, rfl⟩

/-- C4: for a non-empty backend list, `MultiFetcher.Fetch` returns a nil error
exactly when some backend, called in its turn, returned a nil error. -/
theorem MultiFetcher_Fetch_nil_error_iff {σ Ctx RC : Type} (fs : List (Fetcher σ Ctx RC))
    (ctx : Ctx) (ipfsPath : String) (s : σ) (hne : fs ≠ []) :
    ((NewMultiFetcher fs).Fetch ctx ipfsPath s).1.2 = none ↔
      ∃ k r, outcomeAt ctx ipfsPath fs k s = some r ∧ r.2 = none := by
  constructor
  · intro hnil
    by_contra hno
    have hfail : ∀ k q, outcomeAt ctx ipfsPath fs k s = some q → q.2 ≠ none :=
      fun k q hq h2 => hno ⟨k, q, hq, h2⟩
    have hlen : fs.length - 1 < fs.length :=
      Nat.sub_lt (List.length_pos.mpr hne) Nat.one_pos
    obtain ⟨last, hlast⟩ := outcomeAt_of_lt ctx ipfsPath fs (fs.length - 1) s hlen
    have h := fetchLoop_all_fail ctx ipfsPath fs (none, none) s hfail
    simp [MultiFetcher.Fetch, NewMultiFetcher, h, hlast] at hnil
    exact hfail _ _ hlast hnil
  · intro h
    obtain ⟨i, r, hi, hok, hmin⟩ := exists_first_ok ctx ipfsPath fs s h
    have h1 := fetchLoop_first_ok ctx ipfsPath fs (none, none) s i r hi hok hmin
    simp [MultiFetcher.Fetch, NewMultiFetcher, h1]

/-- C4 witness: with A failing and B succeeding the error is nil, and B is
the backend that returned nil. -/
theorem MultiFetcher_Fetch_nil_error_iff_witness :
    ((NewMultiFetcher [backendA, backendB]).Fetch () "versions" ()).1.2 = none ↔
      ∃ k r, outcomeAt () "versions" [backendA, backendB] k () = some r ∧ r.2 = none :=
  MultiFetcher_Fetch_nil_error_iff [backendA, backendB] () "versions" () (by simp)

/-! ## Broadcasting the distribution path: `MultiFetcher.SetDistPath` -/

theorem hasSlashPrefix_slash_append (s : String) : hasSlashPrefix ("/" ++ s) = true := by
  simp [hasSlashPrefix, String.data_append]

theorem hasSlashPrefix_normalizedDistPath (distPath : String) :
    hasSlashPrefix (normalizedDistPath distPath) = true := by
  unfold normalizedDistPath
  cases h : hasSlashPrefix distPath with
  | true => simpa using h
  | false => simpa using hasSlashPrefix_slash_append distPath

theorem normalizedDistPath_of_slash (distPath : String) (h : hasSlashPrefix distPath = true) :
    normalizedDistPath distPath = distPath := by
  simp [normalizedDistPath, h]

theorem normalizedDistPath_of_no_slash (distPath : String)
    (h : hasSlashPrefix distPath = false) :
    normalizedDistPath distPath = "/" ++ distPath := by
  simp [normalizedDistPath, h]

theorem setDistPathCalls_succ (Ctx : Type) (d : String) (n len : Nat) :
    setDistPathCalls Ctx d n (len + 1) =
      Call.setDistPath n d :: setDistPathCalls Ctx d (n + 1) len := by
  simp [setDistPathCalls, List.range'_succ]

/-- The broadcast over recorded backends: the world changes as without
recording, and the log grows by one `SetDistPath(d)` per backend, in order. -/
theorem foldl_spy_setDistPath {σ Ctx RC : Type} (d : String) (fs : List (Fetcher σ Ctx RC))
    (n : Nat) (s : σ) (log : List (Call Ctx)) :
    (spyFrom n fs).foldl (fun st fetcher => fetcher.SetDistPath d st) (s, log) =
      (fs.foldl (fun st fetcher => fetcher.SetDistPath d st) s,
        log ++ setDistPathCalls Ctx d n fs.length) := by
  induction fs generalizing n s log with
  | nil => simp [spyFrom, setDistPathCalls]
  | cons f fs ih =>
    simp only [spyFrom, List.foldl_cons, List.length_cons]
    rw [show (spy n f).SetDistPath d (s, log) =
        (f.SetDistPath d s, log ++ [Call.setDistPath n d]) from rfl, ih]
    simp [setDistPathCalls_succ]

theorem handedDistPaths_setDistPathCalls (Ctx : Type) (d : String) (n len : Nat) :
    handedDistPaths (setDistPathCalls Ctx d n len) = List.replicate len d := by
  induction len generalizing n with
  | zero => simp [setDistPathCalls, handedDistPaths]
  | succ len ih =>
    rw [setDistPathCalls_succ, List.replicate_succ]
    show d :: handedDistPaths (setDistPathCalls Ctx d (n + 1) len) = d :: List.replicate len d
    rw [ih]

/-- C5: for a `distPath` that does not begin with "/", `MultiFetcher.SetDistPath`
calls `SetDistPath("/" + distPath)` on every backend, once each and in
construction order, and does nothing else. -/
theorem MultiFetcher_SetDistPath_adds_slash {σ Ctx RC : Type} (fs : List (Fetcher σ Ctx RC))
    (distPath : String) (s : σ) (h : hasSlashPrefix distPath = false) :
    (NewMultiFetcher fs).SetDistPath distPath s =
      fs.foldl (fun st fetcher => fetcher.SetDistPath ("/" ++ distPath) st) s ∧
    (NewMultiFetcher (spyFrom 0 fs)).SetDistPath distPath (s, []) =
      (fs.foldl (fun st fetcher => fetcher.SetDistPath ("/" ++ distPath) st) s,
        setDistPathCalls Ctx ("/" ++ distPath) 0 fs.length) := by
  constructor
  · simp [MultiFetcher.SetDistPath, NewMultiFetcher, normalizedDistPath_of_no_slash _ h]
  · simp [MultiFetcher.SetDistPath, NewMultiFetcher, normalizedDistPath_of_no_slash _ h,
      foldl_spy_setDistPath]

/-- C5 witness: `SetDistPath("foo")` makes each of three backends receive "/foo". -/
theorem MultiFetcher_SetDistPath_adds_slash_witness :
    (NewMultiFetcher (spyFrom 0 [backendA, backendB, backendC])).SetDistPath "foo" ((), []) =
      ((), [Call.setDistPath 0 "/foo", Call.setDistPath 1 "/foo", Call.setDistPath 2 "/foo"]) :=
  (MultiFetcher_SetDistPath_adds_slash [backendA, backendB, backendC] "foo" () rfl).2

/-- C6: a `distPath` that already begins with "/" is forwarded to every
backend as it is, once each and in construction order; and the normalisation
is idempotent. -/
theorem MultiFetcher_SetDistPath_keeps_slash {σ Ctx RC : Type} (fs : List (Fetcher σ Ctx RC))
    (distPath : String) (s : σ) (h : hasSlashPrefix distPath = true) :
    (NewMultiFetcher fs).SetDistPath distPath s =
      fs.foldl (fun st fetcher => fetcher.SetDistPath distPath st) s ∧
    (NewMultiFetcher (spyFrom 0 fs)).SetDistPath distPath (s, []) =
      (fs.foldl (fun st fetcher => fetcher.SetDistPath distPath st) s,
        setDistPathCalls Ctx distPath 0 fs.length) ∧
    (∀ p : String, normalizedDistPath (normalizedDistPath p) = normalizedDistPath p) := by
  refine ⟨?_, ?_, ?_⟩
  · simp [MultiFetcher.SetDistPath, NewMultiFetcher, normalizedDistPath_of_slash _ h]
  · simp [MultiFetcher.SetDistPath, NewMultiFetcher, normalizedDistPath_of_slash _ h,
      foldl_spy_setDistPath]
  · intro p
    exact normalizedDistPath_of_slash _ (hasSlashPrefix_normalizedDistPath p)

/-- C6 witness: "/already/prefixed" is not prefixed a second time. -/
theorem MultiFetcher_SetDistPath_keeps_slash_witness :
    (NewMultiFetcher (spyFrom 0 [backendA, backendB])).SetDistPath "/already/prefixed" ((), []) =
      ((), [Call.setDistPath 0 "/already/prefixed", Call.setDistPath 1 "/already/prefixed"]) :=
  (MultiFetcher_SetDistPath_keeps_slash [backendA, backendB] "/already/prefixed" () rfl).2.1

/-- C7: whatever string `MultiFetcher.SetDistPath` is given, the empty one
included, every value it hands to a backend's `SetDistPath` begins with "/";
for the empty string that value is "/". -/
theorem MultiFetcher_SetDistPath_hands_slash {σ Ctx RC : Type} (fs : List (Fetcher σ Ctx RC))
    (distPath : String) (s : σ) :
    (handedDistPaths
        ((NewMultiFetcher (spyFrom 0 fs)).SetDistPath distPath (s, ([] : List (Call Ctx)))).2).all
      hasSlashPrefix = true ∧
    handedDistPaths
        ((NewMultiFetcher (spyFrom 0 fs)).SetDistPath "" (s, ([] : List (Call Ctx)))).2 =
      List.replicate fs.length "/" := by
  constructor
  · simp only [MultiFetcher.SetDistPath, NewMultiFetcher, foldl_spy_setDistPath,
      List.nil_append, handedDistPaths_setDistPathCalls]
    simp [hasSlashPrefix_normalizedDistPath]
  · simp only [MultiFetcher.SetDistPath, NewMultiFetcher, foldl_spy_setDistPath,
      List.nil_append, handedDistPaths_setDistPathCalls]
    rfl


/-! ## The bounded stream: `NewLimitReadCloser` -/

theorem cutBuffer_natCast (plen n : Nat) : cutBuffer plen (n : Int) = min plen n := by
  unfold cutBuffer
  split <;> omega

theorem cutBuffer_le (plen : Nat) (N : Int) (hN : 0 < N) : (cutBuffer plen N : Int) ≤ N := by
  unfold cutBuffer
  split <;> omega

theorem LimitedReader_Read_done {ρ : Type} (rc : ReadCloser ρ) (plen : Nat)
    (l : LimitedReader ρ) (h : l.N ≤ 0) :
    LimitedReader.Read rc plen l = (([], some GoError.EOF), l) := by
  simp [LimitedReader.Read, h]

theorem LimitedReader_Read_live {ρ : Type} (rc : ReadCloser ρ) (plen : Nat)
    (l : LimitedReader ρ) (h : 0 < l.N) :
    LimitedReader.Read rc plen l =
      ((rc.Read (cutBuffer plen l.N) l.R).1,
        { R := (rc.Read (cutBuffer plen l.N) l.R).2,
          N := l.N - ((rc.Read (cutBuffer plen l.N) l.R).1.1.length : Int) }) := by
  simp [LimitedReader.Read, not_le.mpr h]

theorem readUntilErr_cons_err {ρ : Type} (rc : ReadCloser ρ) (plen : Nat) (rest : List Nat)
    (s : ρ) (e : GoError) (h : (rc.Read plen s).1.2 = some e) :
    readUntilErr rc (plen :: rest) s = (((rc.Read plen s).1.1, some e), (rc.Read plen s).2) := by
  rcases hr : rc.Read plen s with ⟨⟨d, e1⟩, s1⟩
  rw [hr] at h
  simp only at h
  subst h
  simp [readUntilErr, hr]

theorem readUntilErr_cons_nil {ρ : Type} (rc : ReadCloser ρ) (plen : Nat) (rest : List Nat)
    (s : ρ) (h : (rc.Read plen s).1.2 = none) :
    readUntilErr rc (plen :: rest) s =
      (((rc.Read plen s).1.1 ++ (readUntilErr rc rest (rc.Read plen s).2).1.1,
          (readUntilErr rc rest (rc.Read plen s).2).1.2),
        (readUntilErr rc rest (rc.Read plen s).2).2) := by
  rcases hr : rc.Read plen s with ⟨⟨d, e1⟩, s1⟩
  rw [hr] at h
  simp only at h
  subst h
  simp [readUntilErr, hr]

/-- Reading the bounded stream to its end, from a state with `n` bytes allowed. -/
theorem readUntilErr_limit {ρ : Type} (rc : ReadCloser ρ) (content : ρ → List Byte)
    (hwb : WellBehaved rc content) (bufs : List Nat) (r : ρ) (n : Nat)
    (hpos : ∀ b ∈ bufs, 0 < b) (hlen : min n (content r).length < bufs.length) :
    (readUntilErr (NewLimitReadCloser rc) bufs { R := r, N := (n : Int) }).1 =
        ((content r).take n, some GoError.EOF) ∧
      (readUntilErr (NewLimitReadCloser rc) bufs { R := r, N := (n : Int) }).2.N =
        ((n - min n (content r).length : Nat) : Int) := by
  induction bufs generalizing r n with
  | nil => simp at hlen
  | cons b bs ih =>
    have hb : 0 < b := hpos b (List.mem_cons_self b bs)
    rcases Nat.eq_zero_or_pos n with hn | hn
    · subst hn
      have hrd : (NewLimitReadCloser rc).Read b { R := r, N := ((0 : Nat) : Int) } =
          (([], some GoError.EOF), { R := r, N := ((0 : Nat) : Int) }) :=
        LimitedReader_Read_done rc b { R := r, N := ((0 : Nat) : Int) } (by simp)
      rw [readUntilErr_cons_err _ _ _ _ GoError.EOF (by rw [hrd]), hrd]
      simp
    · have hlive : (NewLimitReadCloser rc).Read b { R := r, N := (n : Int) } =
          ((rc.Read (min b n) r).1,
            { R := (rc.Read (min b n) r).2,
              N := (n : Int) - ((rc.Read (min b n) r).1.1.length : Int) }) := by
        have h := LimitedReader_Read_live rc b { R := r, N := (n : Int) } (by simpa using hn)
        rw [cutBuffer_natCast] at h
        exact h
      have hc : 0 < min b n := by omega
      have hle := hwb.read_le (min b n) r
      have hcont := hwb.read_content (min b n) r
      have herr := hwb.read_err (min b n) r
      have hprog := hwb.read_progress (min b n) r hc
      generalize rc.Read (min b n) r = out at hlive hle hcont herr hprog
      obtain ⟨⟨d, e⟩, r1⟩ := out
      simp only at hlive hle hcont herr hprog
      have hlen2 := congrArg List.length hcont
      rw [List.length_append] at hlen2
      cases e with
      | some e =>
        obtain ⟨heof, hrest⟩ := herr e rfl
        subst heof
        rw [readUntilErr_cons_err _ _ _ _ GoError.EOF (by rw [hlive]), hlive]
        rw [hrest, List.append_nil] at hcont
        rw [hrest] at hlen2
        simp only [List.length_nil, Nat.add_zero] at hlen2
        refine ⟨?_, ?_⟩
        · have ht : List.take n d = d := List.take_of_length_le (by omega)
          simp only [hcont, ht]
        · simp only
          omega
      | none =>
        have hdpos : 0 < d.length := List.length_pos.mpr (hprog rfl)
        rw [readUntilErr_cons_nil _ _ _ _ (by rw [hlive]), hlive]
        have hcast : (n : Int) - (d.length : Int) = ((n - d.length : Nat) : Int) := by omega
        simp only [hcast]
        have hmin : min (n - d.length) (content r1).length < bs.length := by
          simp only [List.length_cons] at hlen
          omega
        have hih := ih r1 (n - d.length) (fun x hx => hpos x (List.mem_cons_of_mem b hx)) hmin
        have ht : List.take n d = d := List.take_of_length_le (by omega)
        refine ⟨?_, ?_⟩
        · rw [hih.1, hcont, List.take_append_eq_append_take, ht]
        · rw [hih.2]
          omega

/-- The in-memory stream is well behaved as soon as it hands out at least one
byte per read. -/
theorem chunkReader_wellBehaved (chunk : Nat) (closeErr : Option GoError) (hc : 0 < chunk) :
    WellBehaved (chunkReader chunk closeErr) (fun s => s.data) where
  read_le plen s := by
    by_cases h : s.data = []
    · simp [chunkReader, h]
    · simp only [chunkReader, h, if_false, List.length_take]
      omega
  read_content plen s := by
    by_cases h : s.data = []
    · simp [chunkReader, h]
    · simp [chunkReader, h]
  read_err plen s e he := by
    by_cases h : s.data = []
    · simp [chunkReader, h] at he
      simp [chunkReader, h, ← he]
    · simp [chunkReader, h] at he
  read_progress plen s hp he := by
    by_cases h : s.data = []
    · simp [chunkReader, h] at he
    · simp only [chunkReader, h, if_false]
      intro ht
      have hl := congrArg List.length ht
      simp only [List.length_take, List.length_nil] at hl
      have hd : 0 < s.data.length := List.length_pos.mpr h
      omega

/-- The log of the wrapped stream's calls while the bounded stream is read:
only reads are added, each within the allowance left, and the allowance left
afterwards is what the returned bytes leave of it. -/
theorem readMany_spy_log {ρ : Type} (rc : ReadCloser ρ) (bufs : List Nat) (r : ρ)
    (log : List StreamCall) (N : Int) :
    ∃ ev, (readMany (NewLimitReadCloser (spyStream rc)) bufs { R := (r, log), N := N }).2.R.2 =
          log ++ ev ∧
      withinAllowance N ev = true ∧ closeCount ev = 0 ∧
      (readMany (NewLimitReadCloser (spyStream rc)) bufs { R := (r, log), N := N }).2.N =
          N - (bytesReturned ev : Int) ∧
      ((∀ plen s, (rc.Read plen s).1.1.length ≤ plen) → (bytesReturned ev : Int) ≤ max N 0) := by
  induction bufs generalizing r log N with
  | nil => exact ⟨[], by simp [readMany, withinAllowance, closeCount, bytesReturned]⟩
  | cons b bs ih =>
    by_cases hN : N ≤ 0
    · have hrd : (NewLimitReadCloser (spyStream rc)).Read b { R := (r, log), N := N } =
          (([], some GoError.EOF), { R := (r, log), N := N }) :=
        LimitedReader_Read_done (spyStream rc) b { R := (r, log), N := N } hN
      simp only [readMany, hrd]
      exact ih r log N
    · have hpos : 0 < N := not_le.mp hN
      have hrd : (NewLimitReadCloser (spyStream rc)).Read b { R := (r, log), N := N } =
          ((rc.Read (cutBuffer b N) r).1,
            { R := ((rc.Read (cutBuffer b N) r).2,
                log ++ [StreamCall.read (cutBuffer b N) (rc.Read (cutBuffer b N) r).1.1.length]),
              N := N - ((rc.Read (cutBuffer b N) r).1.1.length : Int) }) :=
        LimitedReader_Read_live (spyStream rc) b { R := (r, log), N := N } hpos
      simp only [readMany, hrd]
      obtain ⟨ev, h1, h2, h3, h4, h5⟩ := ih (rc.Read (cutBuffer b N) r).2
        (log ++ [StreamCall.read (cutBuffer b N) (rc.Read (cutBuffer b N) r).1.1.length])
        (N - ((rc.Read (cutBuffer b N) r).1.1.length : Int))
      have hcut := cutBuffer_le b N hpos
      refine ⟨StreamCall.read (cutBuffer b N) (rc.Read (cutBuffer b N) r).1.1.length :: ev,
        ?_, ?_, ?_, ?_, ?_⟩
      · rw [h1]
        simp
      · simp [withinAllowance, h2, hpos, hcut]
      · simpa [closeCount] using h3
      · rw [h4]
        simp only [bytesReturned]
        push_cast
        omega
      · intro hle
        have h5b := h5 hle
        have hle2 := hle (cutBuffer b N) r
        simp only [bytesReturned]
        push_cast
        omega

/-- C8: with a limit `L ≥ 0` over a well-behaved stream holding `M` bytes, a
caller who reads the stream returned by `NewLimitReadCloser(rc, L)` with
non-empty buffers until a read reports an error (at most `min(L, M) + 1` reads)
receives exactly the first `min(L, M)` bytes and `io.EOF`; when `M > L` these
are exactly `L` bytes and every further read returns no bytes and `io.EOF`. -/
theorem NewLimitReadCloser_reads_first_bytes {ρ : Type} (rc : ReadCloser ρ)
    (content : ρ → List Byte) (hwb : WellBehaved rc content) (L : Int) (hL : 0 ≤ L) (r : ρ)
    (bufs : List Nat) (hpos : ∀ b ∈ bufs, 0 < b)
    (hlen : min L.toNat (content r).length < bufs.length) :
    (readUntilErr (NewLimitReadCloser rc) bufs (LimitReader r L)).1 =
        ((content r).take (min L.toNat (content r).length), some GoError.EOF) ∧
      (L.toNat < (content r).length →
        ((readUntilErr (NewLimitReadCloser rc) bufs (LimitReader r L)).1.1.length : Int) = L ∧
        ∀ plen, (NewLimitReadCloser rc).Read plen
            (readUntilErr (NewLimitReadCloser rc) bufs (LimitReader r L)).2 =
          (([], some GoError.EOF), (readUntilErr (NewLimitReadCloser rc) bufs (LimitReader r L)).2)) := by
  obtain ⟨n, rfl⟩ := Int.eq_ofNat_of_zero_le hL
  simp only [Int.toNat_ofNat] at hlen ⊢
  obtain ⟨h1, h2⟩ := readUntilErr_limit rc content hwb bufs r n hpos hlen
  have htake : List.take (min n (content r).length) (content r) = List.take n (content r) := by
    rcases Nat.le_total n (content r).length with h | h
    · rw [Nat.min_eq_left h]
    · rw [Nat.min_eq_right h, List.take_of_length_le h, List.take_of_length_le (le_refl _)]
  refine ⟨?_, ?_⟩
  · rw [htake]
    exact h1
  · intro hM
    refine ⟨?_, ?_⟩
    · simp only [LimitReader, h1, List.length_take]
      omega
    · intro plen
      exact LimitedReader_Read_done rc plen _ (by
        simp only [LimitReader]
        rw [h2]
        omega)

/-- C8 witness: "hello world" (11 bytes) behind a limit of 5, handed out at
most 3 bytes at a time and read with buffers of 4: the caller gets "hello". -/
theorem NewLimitReadCloser_reads_first_bytes_witness :
    (readUntilErr (NewLimitReadCloser (chunkReader 3 none)) [4, 4, 4, 4, 4, 4]
        (LimitReader { data := helloWorld, closed := 0 } 5)).1 =
      ([104, 101, 108, 108, 111], some GoError.EOF) :=
  (NewLimitReadCloser_reads_first_bytes (chunkReader 3 none) (fun s => s.data)
    (chunkReader_wellBehaved 3 none (by decide)) 5 (by decide)
    { data := helloWorld, closed := 0 } [4, 4, 4, 4, 4, 4] (by decide) (by decide)).1

/-- C9 as stated fails: with limit 2 over a stream that hands out one byte
per read, a caller reading with buffers of length 2 makes the wrapper ask the
stream for 2 bytes and then for 1 byte, 3 in all, though only 2 are returned. -/
theorem NewLimitReadCloser_requested_exceeds_limit :
    (stateAfterReads (chunkReader 1 none) 2 { data := [97, 98, 99], closed := 0 } [2, 2, 2]).R.2 =
        [StreamCall.read 2 1, StreamCall.read 1 1] ∧
      bytesReturned
        (stateAfterReads (chunkReader 1 none) 2 { data := [97, 98, 99], closed := 0 }
          [2, 2, 2]).R.2 = 2 ∧
      ¬ ((bytesRequested
        (stateAfterReads (chunkReader 1 none) 2 { data := [97, 98, 99], closed := 0 }
          [2, 2, 2]).R.2 : Int) ≤ 2) := by
  decide

/-- C9 (amended): for a limit `L ≥ 0` and any sequence of reads on the stream
returned by `NewLimitReadCloser(rc, L)`, every read of `rc` is made while some
of the `L` bytes are still allowed and with a buffer no longer than what is
still allowed, so `rc` is not read once `L` bytes have been returned; and if
`rc` never returns more bytes than its buffer holds, the bytes it returns in
all are at most `L`. -/
theorem NewLimitReadCloser_underlying_within_limit {ρ : Type} (rc : ReadCloser ρ) (L : Int)
    (hL : 0 ≤ L) (r : ρ) (bufs : List Nat) :
    withinAllowance L (stateAfterReads rc L r bufs).R.2 = true ∧
      ((∀ plen s, (rc.Read plen s).1.1.length ≤ plen) →
        (bytesReturned (stateAfterReads rc L r bufs).R.2 : Int) ≤ L) := by
  obtain ⟨ev, h1, h2, _, _, h5⟩ := readMany_spy_log rc bufs r [] L
  have hev : (stateAfterReads rc L r bufs).R.2 = ev := by
    simpa [stateAfterReads, LimitReader] using h1
  rw [hev]
  refine ⟨h2, fun hle => ?_⟩
  have := h5 hle
  omega

/-- C9 witness: the run of the counterexample stays within the allowance and
returns 2 bytes in all. -/
theorem NewLimitReadCloser_underlying_within_limit_witness :
    withinAllowance 2
        (stateAfterReads (chunkReader 1 none) 2 { data := [97, 98, 99], closed := 0 }
          [2, 2, 2]).R.2 = true ∧
      ((∀ plen s, ((chunkReader 1 none).Read plen s).1.1.length ≤ plen) →
        (bytesReturned
          (stateAfterReads (chunkReader 1 none) 2 { data := [97, 98, 99], closed := 0 }
            [2, 2, 2]).R.2 : Int) ≤ 2) :=
  NewLimitReadCloser_underlying_within_limit (chunkReader 1 none) 2 (by decide)
    { data := [97, 98, 99], closed := 0 } [2, 2, 2]

/-- C10: `Close` on the stream returned by `NewLimitReadCloser(rc, L)` returns
what `rc.Close` returns and changes `rc` as `rc.Close` does, in every state of
the wrapper; after any sequence of reads it is one call of `rc.Close`, the only
one made. -/
theorem limitReadCloser_Close_delegates {ρ : Type} (rc : ReadCloser ρ) (L : Int) (r : ρ)
    (bufs : List Nat) :
    (∀ l : LimitedReader ρ, (NewLimitReadCloser rc).Close l =
      ((rc.Close l.R).1, { R := (rc.Close l.R).2, N := l.N })) ∧
    (NewLimitReadCloser (spyStream rc)).Close (stateAfterReads rc L r bufs) =
      ((rc.Close (stateAfterReads rc L r bufs).R.1).1,
        { R := ((rc.Close (stateAfterReads rc L r bufs).R.1).2,
            (stateAfterReads rc L r bufs).R.2 ++ [StreamCall.close]),
          N := (stateAfterReads rc L r bufs).N }) ∧
    closeCount (stateAfterReads rc L r bufs).R.2 = 0 ∧
    closeCount
      ((NewLimitReadCloser (spyStream rc)).Close (stateAfterReads rc L r bufs)).2.R.2 = 1 := by
  obtain ⟨ev, h1, _, h3, _, _⟩ := readMany_spy_log rc bufs r [] L
  have hev : (stateAfterReads rc L r bufs).R.2 = ev := by
    simpa [stateAfterReads, LimitReader] using h1
  have hcc : ∀ xs : List StreamCall, closeCount (xs ++ [StreamCall.close]) = closeCount xs + 1 := by
    intro xs
    induction xs with
    | nil => rfl
    | cons x xs ih => cases x <;> simp [closeCount, ih]
  refine ⟨fun _ => rfl, rfl, by rw [hev]; exact h3, ?_⟩
  show closeCount ((stateAfterReads rc L r bufs).R.2 ++ [StreamCall.close]) = 1
  rw [hcc, hev, h3]

/-! ## Choosing the distribution path: `GetDistPathEnv` -/

theorem Getenv_of_some (env : Environ) (key v : String) (h : env key = some v) :
    Getenv env key = v := by
  simp [Getenv, h]

theorem Getenv_of_none (env : Environ) (key : String) (h : env key = none) :
    Getenv env key = "" := by
  simp [Getenv, h]

theorem IpnsIpfsDist_ne_empty : IpnsIpfsDist ≠ "" := by
  decide

/-- C12: when `IPFS_DIST_PATH` is set to a non-empty value `v`,
`GetDistPathEnv(distPath)` returns `v` as it is, whatever `distPath` is. -/
theorem GetDistPathEnv_override (env : Environ) (distPath v : String)
    (hset : env envIpfsDistPath = some v) (hv : v ≠ "") :
    GetDistPathEnv env distPath = v := by
  simp [GetDistPathEnv, Getenv_of_some env _ v hset, hv]

/-- C12 witness: variable "/ipns/custom", default "" gives "/ipns/custom". -/
theorem GetDistPathEnv_override_witness :
    GetDistPathEnv (distPathEnviron "/ipns/custom") "" = "/ipns/custom" :=
  GetDistPathEnv_override (distPathEnviron "/ipns/custom") "" "/ipns/custom" (by decide)
    (by decide)

/-- C13: when `IPFS_DIST_PATH` is unset or set to the empty string,
`GetDistPathEnv(distPath)` returns `distPath` if that is non-empty and the
constant `IpnsIpfsDist`, which is "/ipns/dist.ipfs.io", otherwise. -/
theorem GetDistPathEnv_no_override (env : Environ) (distPath : String)
    (hunset : env envIpfsDistPath = none ∨ env envIpfsDistPath = some "") :
    (distPath ≠ "" → GetDistPathEnv env distPath = distPath) ∧
    (distPath = "" → GetDistPathEnv env distPath = IpnsIpfsDist) ∧
    IpnsIpfsDist = "/ipns/dist.ipfs.io" := by
  have hg : Getenv env envIpfsDistPath = "" := by
    rcases hunset with h | h
    · exact Getenv_of_none env _ h
    · exact Getenv_of_some env _ _ h
  refine ⟨fun h => ?_, fun h => ?_, rfl⟩
  · simp [GetDistPathEnv, hg, h]
  · simp [GetDistPathEnv, hg, h]

/-- C13 witness: with the variable unset, "/ipfs/Qm123" comes back as it is
and "" gives the IPNS constant. -/
theorem GetDistPathEnv_no_override_witness :
    GetDistPathEnv noEnviron "/ipfs/Qm123" = "/ipfs/Qm123" ∧
    GetDistPathEnv noEnviron "" = "/ipns/dist.ipfs.io" :=
  ⟨(GetDistPathEnv_no_override noEnviron "/ipfs/Qm123" (Or.inl rfl)).1 (by decide),
    (GetDistPathEnv_no_override noEnviron "" (Or.inl rfl)).2.1 rfl⟩

/-- C14: the result of `GetDistPathEnv` is, unchanged, the value of the
environment variable, `distPath` or the constant `IpnsIpfsDist`; with the
variable set to "foo" the result is "foo", with no "/" put in front. -/
theorem GetDistPathEnv_verbatim (env : Environ) (distPath : String) :
    (GetDistPathEnv env distPath = Getenv env envIpfsDistPath ∨
      GetDistPathEnv env distPath = distPath ∨
      GetDistPathEnv env distPath = IpnsIpfsDist) ∧
    GetDistPathEnv (distPathEnviron "foo") distPath = "foo" ∧
    hasSlashPrefix (GetDistPathEnv (distPathEnviron "foo") distPath) = false := by
  have hfoo : GetDistPathEnv (distPathEnviron "foo") distPath = "foo" := by
    have hg : Getenv (distPathEnviron "foo") envIpfsDistPath = "foo" :=
      Getenv_of_some _ _ _ (by decide)
    have hne : ("foo" : String) ≠ "" := by decide
    simp [GetDistPathEnv, hg, hne]
  refine ⟨?_, hfoo, ?_⟩
  · unfold GetDistPathEnv
    split
    · exact Or.inl rfl
    · split
      · exact Or.inr (Or.inr rfl)
      · exact Or.inr (Or.inl rfl)
  · rw [hfoo]
    decide

/-- C18: `GetDistPathEnv` never returns the empty string, whatever the
environment and `distPath` are. -/
theorem GetDistPathEnv_ne_empty (env : Environ) (distPath : String) :
    GetDistPathEnv env distPath ≠ "" := by
  unfold GetDistPathEnv
  split
  · assumption
  · split
    · exact IpnsIpfsDist_ne_empty
    · assumption

/-! ## More on the fallback cascade -/

/-- C16: `MultiFetcher.Fetch` never looks at the context: whatever `ctx` is
(a cancelled one included), when every backend returns an error the calls made
are `Fetch(ctx, path)` on every backend, once each and in construction order,
with the context and path that `MultiFetcher.Fetch` was given. -/
theorem MultiFetcher_Fetch_tries_all {σ Ctx RC : Type} (fs : List (Fetcher σ Ctx RC))
    (ctx : Ctx) (ipfsPath : String) (s : σ)
    (hfail : ∀ k q, outcomeAt ctx ipfsPath fs k s = some q → q.2 ≠ none) :
    ((NewMultiFetcher (spyFrom 0 fs)).Fetch ctx ipfsPath (s, [])).2.2 =
      (List.range fs.length).map (fun k => Call.fetch k ctx ipfsPath) := by
  have h := fetchLoop_spy_all_fail ctx ipfsPath fs 0 (none, none) s [] hfail
  simp only [MultiFetcher.Fetch, NewMultiFetcher, h, List.nil_append, fetchCalls,
    List.range_eq_range']

/-- C16 witness: with a cancelled context two context-checking backends both
fail fast, and both are called, in order, with that context. -/
theorem MultiFetcher_Fetch_tries_all_witness :
    ((NewMultiFetcher (spyFrom 0 [ctxAwareFetcher (some "one", none),
        ctxAwareFetcher (some "two", none)])).Fetch true "versions" ((), [])).2.2 =
      [Call.fetch 0 true "versions", Call.fetch 1 true "versions"] :=
  MultiFetcher_Fetch_tries_all
    [ctxAwareFetcher (some "one", none), ctxAwareFetcher (some "two", none)] true "versions" ()
    (by
      intro k q hq
      have hk := outcomeAt_lt_of_some _ _ _ _ _ _ hq
      simp at hk
      interval_cases k
      · cases hq
        simp [ctxAwareFetcher]
      · cases hq
        simp [ctxAwareFetcher])

/-- C17: when every backend of a non-empty list fails, the stream that
`MultiFetcher.Fetch` returns is the stream the last backend returned, nil or
not; so it is nil when the last backend returned a nil stream. -/
theorem MultiFetcher_Fetch_all_fail_stream {σ Ctx RC : Type} (fs : List (Fetcher σ Ctx RC))
    (ctx : Ctx) (ipfsPath : String) (s : σ) (hne : fs ≠ [])
    (hfail : ∀ k q, outcomeAt ctx ipfsPath fs k s = some q → q.2 ≠ none) :
    ∃ last, outcomeAt ctx ipfsPath fs (fs.length - 1) s = some last ∧
      ((NewMultiFetcher fs).Fetch ctx ipfsPath s).1.1 = last.1 ∧
      (last.1 = none → ((NewMultiFetcher fs).Fetch ctx ipfsPath s).1.1 = none) := by
  have hlen : fs.length - 1 < fs.length :=
    Nat.sub_lt (List.length_pos.mpr hne) Nat.one_pos
  obtain ⟨last, hlast⟩ := outcomeAt_of_lt ctx ipfsPath fs (fs.length - 1) s hlen
  have hres : ((NewMultiFetcher fs).Fetch ctx ipfsPath s).1 = last := by
    have h := fetchLoop_all_fail ctx ipfsPath fs (none, none) s hfail
    simp [MultiFetcher.Fetch, NewMultiFetcher, h, hlast]
  exact ⟨last, hlast, by rw [hres], fun h => by rw [hres]; exact h⟩

/-- C17 witness: A fails with a nil stream and F, the last one, fails with a
stream: that stream comes back with the error. -/
theorem MultiFetcher_Fetch_all_fail_stream_witness :
    ∃ last, outcomeAt () "versions" [backendA, backendF] 1 () = some last ∧
      ((NewMultiFetcher [backendA, backendF]).Fetch () "versions" ()).1.1 = last.1 ∧
      (last.1 = none → ((NewMultiFetcher [backendA, backendF]).Fetch () "versions" ()).1.1 = none) :=
  MultiFetcher_Fetch_all_fail_stream [backendA, backendF] () "versions" () (by simp)
    (by
      intro k q hq
      have hk := outcomeAt_lt_of_some _ _ _ _ _ _ hq
      simp at hk
      interval_cases k
      · cases hq
        simp [backendA, constFetcher]
      · cases hq
        simp [backendF, constFetcher])

/-! ## More on the bounded stream -/

/-- With nothing allowed, reads change nothing and all report end-of-data. -/
theorem readMany_done {ρ : Type} (rc : ReadCloser ρ) (bufs : List Nat) (l : LimitedReader ρ)
    (h : l.N ≤ 0) :
    readMany (NewLimitReadCloser rc) bufs l =
      (List.replicate bufs.length ([], some GoError.EOF), l) := by
  induction bufs with
  | nil => rfl
  | cons b bs ih =>
    have hrd : (NewLimitReadCloser rc).Read b l = (([], some GoError.EOF), l) :=
      LimitedReader_Read_done rc b l h
    simp only [readMany, hrd, ih, List.length_cons, List.replicate_succ]

/-- C11: a `Read` on the stream returned by `NewLimitReadCloser(rc, L)`, made
after any reads that returned fewer than `L` bytes in all, calls `rc.Read`
once, with the buffer cut to the bytes still allowed, and returns what that
call returned: the same byte count and the same error `e`. -/
theorem NewLimitReadCloser_Read_passes_error {ρ : Type} (rc : ReadCloser ρ) (L : Int) (r : ρ)
    (bufs : List Nat) (plen : Nat) (e : GoError)
    (hlt : (bytesReturned (stateAfterReads rc L r bufs).R.2 : Int) < L)
    (herr : (rc.Read (cutBuffer plen (L - bytesReturned (stateAfterReads rc L r bufs).R.2))
      (stateAfterReads rc L r bufs).R.1).1.2 = some e) :
    ((NewLimitReadCloser (spyStream rc)).Read plen (stateAfterReads rc L r bufs)).1 =
        ((rc.Read (cutBuffer plen (L - bytesReturned (stateAfterReads rc L r bufs).R.2))
          (stateAfterReads rc L r bufs).R.1).1.1, some e) ∧
      ((NewLimitReadCloser (spyStream rc)).Read plen (stateAfterReads rc L r bufs)).2.R.2 =
        (stateAfterReads rc L r bufs).R.2 ++
          [StreamCall.read (cutBuffer plen (L - bytesReturned (stateAfterReads rc L r bufs).R.2))
            (rc.Read (cutBuffer plen (L - bytesReturned (stateAfterReads rc L r bufs).R.2))
              (stateAfterReads rc L r bufs).R.1).1.1.length] := by
  obtain ⟨ev, h1, _, _, h4, _⟩ := readMany_spy_log rc bufs r [] L
  have hev : (stateAfterReads rc L r bufs).R.2 = ev := by
    simpa [stateAfterReads, LimitReader] using h1
  have hN : (stateAfterReads rc L r bufs).N =
      L - (bytesReturned (stateAfterReads rc L r bufs).R.2 : Int) := by
    rw [hev]
    exact h4
  have hpos : 0 < (stateAfterReads rc L r bufs).N := by
    rw [hN]
    omega
  have hlive := LimitedReader_Read_live (spyStream rc) plen (stateAfterReads rc L r bufs) hpos
  rw [hN] at hlive
  have hrd : (NewLimitReadCloser (spyStream rc)).Read plen (stateAfterReads rc L r bufs) =
      LimitedReader.Read (spyStream rc) plen (stateAfterReads rc L r bufs) := rfl
  rw [hrd, hlive]
  refine ⟨?_, rfl⟩
  exact Prod.ext rfl herr

/-- C11 witness: behind a limit of 10 a stream with 3 bytes is read once and
then breaks; the next read returns the stream's own error and no bytes. -/
theorem NewLimitReadCloser_Read_passes_error_witness :
    ((NewLimitReadCloser (spyStream (brokenReader (GoError.other "connection reset")))).Read 4
        (stateAfterReads (brokenReader (GoError.other "connection reset")) 10
          { data := [1, 2, 3], closed := 0 } [4])).1 =
      ([], some (GoError.other "connection reset")) :=
  (NewLimitReadCloser_Read_passes_error (brokenReader (GoError.other "connection reset")) 10
    { data := [1, 2, 3], closed := 0 } [4] 4 (GoError.other "connection reset")
    (by decide) (by decide)).1

/-- C19: with a limit `L ≤ 0` every read of the stream returned by
`NewLimitReadCloser(rc, L)`, the first one included, returns no bytes and
`io.EOF` and leaves `rc` untouched: `rc.Read` is never called.  `Close` is then
one call of `rc.Close`, whose result it returns. -/
theorem NewLimitReadCloser_nonpositive_limit {ρ : Type} (rc : ReadCloser ρ) (L : Int)
    (hL : L ≤ 0) (r : ρ) (bufs : List Nat) :
    readMany (NewLimitReadCloser (spyStream rc)) bufs (LimitReader (r, []) L) =
        (List.replicate bufs.length ([], some GoError.EOF), LimitReader (r, []) L) ∧
      (NewLimitReadCloser (spyStream rc)).Close (stateAfterReads rc L r bufs) =
        ((rc.Close r).1, { R := ((rc.Close r).2, [StreamCall.close]), N := L }) := by
  have h := readMany_done (spyStream rc) bufs (LimitReader (r, []) L) hL
  refine ⟨h, ?_⟩
  have hst : stateAfterReads rc L r bufs = LimitReader (r, []) L := by
    simp only [stateAfterReads, h]
  rw [hst]
  rfl

/-- C19 witness: limit -1 over "hello world": three reads return nothing and
`io.EOF`, the stream is not read, and `Close` closes it. -/
theorem NewLimitReadCloser_nonpositive_limit_witness :
    readMany (NewLimitReadCloser (spyStream (chunkReader 3 none))) [4, 4, 4]
        (LimitReader ({ data := helloWorld, closed := 0 }, []) (-1)) =
        (List.replicate 3 ([], some GoError.EOF),
          LimitReader ({ data := helloWorld, closed := 0 }, []) (-1)) ∧
      (NewLimitReadCloser (spyStream (chunkReader 3 none))).Close
          (stateAfterReads (chunkReader 3 none) (-1) { data := helloWorld, closed := 0 }
            [4, 4, 4]) =
        (none, { R := ({ data := helloWorld, closed := 1 }, [StreamCall.close]), N := -1 }) :=
  NewLimitReadCloser_nonpositive_limit (chunkReader 3 none) (-1) (by decide)
    { data := helloWorld, closed := 0 } [4, 4, 4]

/-! ## Construction: `NewMultiFetcher` copies its argument -/

theorem Slice_copy_make (σ Ctx RC : Type) (xs : List (Option (Fetcher σ Ctx RC))) :
    Slice.copy (Slice.make σ Ctx RC xs.length) xs = xs := by
  simp [Slice.copy, Slice.make]

/-- Over a slice without nil elements the loop in memory is the loop over the
list of backends. -/
theorem fetchLoopSlots_map_some {σ Ctx RC : Type} (ctx : Ctx) (p : String)
    (fs : List (Fetcher σ Ctx RC)) (acc : FetchResult RC) (s : σ) :
    MultiFetcher.fetchLoopSlots ctx p (fs.map some) acc s =
      some (MultiFetcher.fetchLoop ctx p fs acc s) := by
  induction fs generalizing acc s with
  | nil => rfl
  | cons f fs ih =>
    rcases hf : f.Fetch ctx p s with ⟨⟨rc, e⟩, s1⟩
    cases e with
    | none => simp [MultiFetcher.fetchLoopSlots, MultiFetcher.fetchLoop, hf]
    | some err => simp [MultiFetcher.fetchLoopSlots, MultiFetcher.fetchLoop, hf, ih]

theorem setDistPathSlots_map_some {σ Ctx RC : Type} (d : String)
    (fs : List (Fetcher σ Ctx RC)) (s : σ) :
    MultiFetcher.setDistPathSlots d (fs.map some) s =
      some (fs.foldl (fun st fetcher => fetcher.SetDistPath d st) s) := by
  induction fs generalizing s with
  | nil => rfl
  | cons f fs ih => simp [MultiFetcher.setDistPathSlots, ih]

theorem SliceMem_load_store_ne {σ Ctx RC : Type} (m : SliceMem σ Ctx RC) (a b : Nat)
    (xs : List (Option (Fetcher σ Ctx RC))) (h : a ≠ b) :
    (m.store a xs).load b = m.load b := by
  simp [SliceMem.load, SliceMem.store, List.getElem?_set_ne h]

/-- Assignments to other slices leave the slice at address `a` as it is. -/
theorem SliceMem_load_storeAll {σ Ctx RC : Type} (m : SliceMem σ Ctx RC) (a : Nat)
    (writes : List (Nat × List (Option (Fetcher σ Ctx RC))))
    (h : ∀ w ∈ writes, w.1 ≠ a) : (m.storeAll writes).load a = m.load a := by
  induction writes generalizing m with
  | nil => rfl
  | cons w ws ih =>
    simp only [SliceMem.storeAll]
    rw [ih _ (fun x hx => h x (List.mem_cons_of_mem w hx))]
    exact SliceMem_load_store_ne m w.1 a w.2 (h w (List.mem_cons_self w ws))

theorem NewMultiFetcher_alloc_load {σ Ctx RC : Type} (m : SliceMem σ Ctx RC) (f : Nat) :
    (NewMultiFetcher.alloc m f).2.load (NewMultiFetcher.alloc m f).1 = m.load f := by
  simp [NewMultiFetcher.alloc, SliceMem.load, Slice_copy_make]

/-- C15: `NewMultiFetcher(s...)` keeps its own copy of the elements of `s`,
whatever they are (nil elements included).  Whatever is assigned afterwards to
elements of `s`, or of any slice that existed when it was called, the
composite's slice holds the elements `s` had at construction time, in that
order, so that its `Fetch` and `SetDistPath` run over exactly these; when none
of them is nil these are the `Fetch` and `SetDistPath` of a `MultiFetcher` over
that list of backends. -/
theorem NewMultiFetcher_defensive_copy {σ Ctx RC : Type} (m : SliceMem σ Ctx RC) (f : Nat)
    (writes : List (Nat × List (Option (Fetcher σ Ctx RC))))
    (hw : ∀ w ∈ writes, w.1 < m.length) (ctx : Ctx) (ipfsPath distPath : String) (s : σ) :
    ((NewMultiFetcher.alloc m f).2.storeAll writes).load (NewMultiFetcher.alloc m f).1 =
        m.load f ∧
      MultiFetcher.FetchAt ((NewMultiFetcher.alloc m f).2.storeAll writes)
          (NewMultiFetcher.alloc m f).1 ctx ipfsPath s =
        MultiFetcher.fetchLoopSlots ctx ipfsPath (m.load f) (none, none) s ∧
      MultiFetcher.SetDistPathAt ((NewMultiFetcher.alloc m f).2.storeAll writes)
          (NewMultiFetcher.alloc m f).1 distPath s =
        MultiFetcher.setDistPathSlots (normalizedDistPath distPath) (m.load f) s ∧
      (∀ fs : List (Fetcher σ Ctx RC), m.load f = fs.map some →
        MultiFetcher.FetchAt ((NewMultiFetcher.alloc m f).2.storeAll writes)
            (NewMultiFetcher.alloc m f).1 ctx ipfsPath s =
          some ((NewMultiFetcher fs).Fetch ctx ipfsPath s) ∧
        MultiFetcher.SetDistPathAt ((NewMultiFetcher.alloc m f).2.storeAll writes)
            (NewMultiFetcher.alloc m f).1 distPath s =
          some ((NewMultiFetcher fs).SetDistPath distPath s)) := by
  have hload : ((NewMultiFetcher.alloc m f).2.storeAll writes).load
      (NewMultiFetcher.alloc m f).1 = m.load f := by
    rw [SliceMem_load_storeAll (NewMultiFetcher.alloc m f).2 (NewMultiFetcher.alloc m f).1
      writes (fun w hw1 => Nat.ne_of_lt (hw w hw1)), NewMultiFetcher_alloc_load]
  refine ⟨hload, ?_, ?_, ?_⟩
  · simp only [MultiFetcher.FetchAt, hload]
  · simp only [MultiFetcher.SetDistPathAt, hload]
  · intro fs hfs
    refine ⟨?_, ?_⟩
    · simp only [MultiFetcher.FetchAt, hload, hfs, fetchLoopSlots_map_some]
      rfl
    · simp only [MultiFetcher.SetDistPathAt, hload, hfs, setDistPathSlots_map_some]
      rfl

/-- C15 witness: the caller's slice holds B and a nil element; after
construction the caller overwrites it with nil and C.  The composite still
asks B first, and so returns B's "hello" without reaching the nil element. -/
theorem NewMultiFetcher_defensive_copy_witness :
    MultiFetcher.FetchAt
        ((NewMultiFetcher.alloc [[some backendB, none]] 0).2.storeAll
          [(0, [none, some backendC])])
        (NewMultiFetcher.alloc [[some backendB, none]] 0).1 () "versions" () =
      some ((some "hello", none), ()) :=
  (NewMultiFetcher_defensive_copy [[some backendB, none]] 0 [(0, [none, some backendC])]
    (by simp) () "versions" "" ()).2.1

/-- A second run of the copy: the caller's slice holds A and B; after
construction the caller swaps them and then overwrites both with C.  The
composite still asks A and then B, and returns B's "hello". -/
theorem NewMultiFetcher_alloc_example :
    MultiFetcher.FetchAt
        ((NewMultiFetcher.alloc [[some backendA, some backendB]] 0).2.storeAll
          [(0, [some backendB, some backendA]), (0, [some backendC, some backendC])])
        (NewMultiFetcher.alloc [[some backendA, some backendB]] 0).1 () "versions" () =
      some ((some "hello", none), ()) := by
  rfl

end Migrations
